import Mathlib

/-!
# Bounded views over shared buffers: a model of the slice demos

This file embeds the semantics demonstrated by the repository's demo
functions (`splitDemo`, `appendDemo`, `alwaysCopy`): Go slices as views
(pointer, length, capacity) over shared fixed-size backing arrays, the
in-place/reallocating behaviour of `append`, the aliasing behaviour of
`bytes.Split`, and the copying behaviour of `copy`.

A `Store` is the heap of allocated backing arrays, indexed by allocation
order; a `View` is a slice header: the identity of its backing array, the
start offset into it, the length, and the capacity.  As in Go, a view's
capacity always extends from its offset to the end of the backing array.
Elements are modelled as `Nat` (bytes in the split demos, ints in the
append demos).
-/

set_option autoImplicit false

namespace Slices

/-- The heap of backing arrays, indexed by allocation order. -/
abbrev Store := List (List Nat)

/-- The contents of backing array `b` (empty if no such array). -/
def Store.read (σ : Store) (b : Nat) : List Nat :=
  (σ[b]?).getD []

/-- Overwrite one element of backing array `b` (a single store `buf[i] = x`). -/
def Store.write (σ : Store) (b i x : Nat) : Store :=
  σ.set b ((σ.read b).set i x)

/-- A slice header: backing-array identity, start offset, length, capacity. -/
structure View where
  buf : Nat
  off : Nat
  len : Nat
  cap : Nat
deriving DecidableEq, Repr

instance : Inhabited View := ⟨⟨0, 0, 0, 0⟩⟩

/-- The elements a view currently exposes: `len` elements starting at `off`. -/
def View.readAll (v : View) (σ : Store) : List Nat :=
  ((Store.read σ v.buf).drop v.off).take v.len

/-- `v[i] = x` — write through a view, as in `a[0] = byte('*')` in `splitDemo`. -/
def View.writeAt (v : View) (σ : Store) (i x : Nat) : Store :=
  Store.write σ v.buf (v.off + i) x

/-- Well-formedness (invariants every Go slice satisfies): the backing array
exists, `len ≤ cap`, and the capacity reaches exactly to the end of the
backing array. -/
def View.Wf (v : View) (σ : Store) : Prop :=
  v.buf < σ.length ∧ v.len ≤ v.cap ∧ v.off + v.cap = (Store.read σ v.buf).length

instance (v : View) (σ : Store) : Decidable (v.Wf σ) := by
  unfold View.Wf; infer_instance

/-- Overwrite the elements of `l` starting at index `i` with `xs`
(the element-wise stores performed by `append`'s in-place branch and by
`copy`). -/
def writeRange (l : List Nat) (i : Nat) (xs : List Nat) : List Nat :=
  l.take i ++ xs ++ l.drop (i + xs.length)

/-- Go's built-in `append(v, xs...)` as used in `appendDemo` and `splitDemo`:
if the new length fits in the capacity, the new elements are written in
place into the shared backing array; otherwise a fresh, larger backing
array is allocated (at least doubled, zero-filled beyond the data), the
old elements are copied, and the result points at the fresh array. -/
def grow (σ : Store) (v : View) (xs : List Nat) : Store × View :=
  if v.len + xs.length ≤ v.cap then
    (σ.set v.buf (writeRange (Store.read σ v.buf) (v.off + v.len) xs),
     { v with len := v.len + xs.length })
  else
    (σ ++ [v.readAll σ ++ xs ++
             List.replicate (max (2 * v.cap) (v.len + xs.length) - (v.len + xs.length)) 0],
     { buf := σ.length, off := 0, len := v.len + xs.length,
       cap := max (2 * v.cap) (v.len + xs.length) })

/-- Go's built-in `copy(dst, src)` as used in `alwaysCopy`: copy
`min dst.len src.len` elements from the source region into the destination
region (reading the source before writing, as memmove does) and return the
count. -/
def copyInto (σ : Store) (d s : View) : Store × Nat :=
  (σ.set d.buf
     (writeRange (Store.read σ d.buf) d.off
        (((Store.read σ s.buf).drop s.off).take (min d.len s.len))),
   min d.len s.len)

/-- Size in bytes of the first UTF-8 encoded rune of `p`, following Go's
`unicode/utf8.DecodeRune`: 0 on empty input; 1 for ASCII, for any invalid
or incomplete encoding, and for a stray continuation byte; otherwise the
length 2–4 of the valid multi-byte encoding. -/
def utf8RuneSize : List Nat → Nat
  | [] => 0
  | b0 :: rest =>
    if b0 < 0x80 then 1
    else if b0 < 0xC2 then 1
    else if b0 < 0xE0 then
      match rest with
      | b1 :: _ => if 0x80 ≤ b1 ∧ b1 ≤ 0xBF then 2 else 1
      | [] => 1
    else if b0 < 0xF0 then
      match rest with
      | b1 :: b2 :: _ =>
        if (if b0 = 0xE0 then 0xA0 else 0x80) ≤ b1 ∧
           b1 ≤ (if b0 = 0xED then 0x9F else 0xBF) ∧
           0x80 ≤ b2 ∧ b2 ≤ 0xBF then 3 else 1
      | _ => 1
    else if b0 < 0xF5 then
      match rest with
      | b1 :: b2 :: b3 :: _ =>
        if (if b0 = 0xF0 then 0x90 else 0x80) ≤ b1 ∧
           b1 ≤ (if b0 = 0xF4 then 0x8F else 0xBF) ∧
           0x80 ≤ b2 ∧ b2 ≤ 0xBF ∧ 0x80 ≤ b3 ∧ b3 ≤ 0xBF then 4 else 1
      | _ => 1
    else 1

/-- The `(start, length)` pairs produced by Go's `bytes.explode` (the
empty-separator case of `bytes.Split`): one segment per UTF-8 sequence,
scanned left to right.  The scan is expressed as a fold over all positions
that consumes a rune exactly when the position is the current cursor. -/
def explodeSegs (s : List Nat) : List (Nat × Nat) :=
  ((List.range s.length).foldl
    (fun (st : Nat × List (Nat × Nat)) i =>
      if i = st.1 then
        (i + utf8RuneSize (s.drop i), st.2 ++ [(i, utf8RuneSize (s.drop i))])
      else st)
    (0, [])).2

/-- Start positions of the non-overlapping, left-to-right occurrences of
`sep` in `s`, exactly as `bytes.Split`'s scanning loop finds them: the
index advances one position at a time and, upon a match, skips past the
matched separator. -/
def matchStarts (s sep : List Nat) : List Nat :=
  ((List.range s.length).foldl
    (fun (st : Nat × List Nat) i =>
      if st.1 ≤ i ∧ sep.isPrefixOf (s.drop i) = true then
        (i + sep.length, st.2 ++ [i])
      else st)
    (0, [])).2

/-- The `(start, length)` pairs of the segments `bytes.Split` returns for a
nonempty separator: one segment before each occurrence, plus the tail
segment after the last occurrence. -/
def segBounds (s sep : List Nat) : List (Nat × Nat) :=
  ((0 :: (matchStarts s sep).map (· + sep.length)).zip
      ((matchStarts s sep) ++ [s.length])).map
    (fun p => (p.1, p.2 - p.1))

/-- Go's `bytes.Split(v, sep)` as used in `splitDemo`, acting on views:
no copying happens — each returned segment is a view into `v`'s backing
array whose capacity extends to the end of that array (two-index slicing,
as in the Go version the article was written against).  An empty separator
splits into one segment per UTF-8 sequence (`bytes.explode`). -/
def splitBySeparator (σ : Store) (v : View) (sep : List Nat) : List View :=
  (if sep = [] then explodeSegs (v.readAll σ) else segBounds (v.readAll σ) sep).map
    (fun p => { buf := v.buf, off := v.off + p.1, len := p.2, cap := v.cap - p.1 })

/-- The possible failure of `slice`: invalid bounds. -/
inductive RangeError where
  | rangeError
deriving DecidableEq, Repr

/-- Modelled from the spec: the repository's demos contain no standalone
`slice(view, lo, hi)` operation, so it is taken from the spec's words — a
new view over the same backing array with `off = v.off + lo`,
`len = hi - lo`, `cap = v.cap - lo`, failing with `RangeError` exactly
when `lo < 0 ∨ hi < lo ∨ hi > v.len`. -/
def slice (v : View) (lo hi : Int) : Except RangeError View :=
  if lo < 0 ∨ hi < lo ∨ (v.len : Int) < hi then
    .error .rangeError
  else
    .ok { buf := v.buf, off := v.off + lo.toNat, len := (hi - lo).toNat,
          cap := v.cap - lo.toNat }

/-! ### Concrete data of the demos -/

/-- The backing array of `a := []byte("a,b,c")` in `splitDemo`. -/
def abcStore : Store := [[97, 44, 98, 44, 99]]

/-- The slice `a` itself: whole array, length = capacity = 5. -/
def abcView : View := ⟨0, 0, 5, 5⟩

/-- The backing array of `"*,b,c"`, the state after `splitDemo` sets the
first byte to `'*'`. -/
def starStore : Store := [[42, 44, 98, 44, 99]]

/-! ### Lemmas about the heap -/

theorem Store.read_set_self (σ : Store) (b : Nat) (l : List Nat) (h : b < σ.length) :
    Store.read (σ.set b l) b = l := by
  simp [Store.read, List.getElem?_set_self h]

theorem Store.read_set_ne (σ : Store) (b b' : Nat) (l : List Nat) (h : b ≠ b') :
    Store.read (σ.set b l) b' = Store.read σ b' := by
  simp [Store.read, List.getElem?_set_ne h]

theorem Store.read_append_left (σ : Store) (ls : List (List Nat)) (b : Nat)
    (h : b < σ.length) : Store.read (σ ++ ls) b = Store.read σ b := by
  simp [Store.read, List.getElem?_append_left h]

theorem Store.read_snoc_length (σ : Store) (l : List Nat) :
    Store.read (σ ++ [l]) σ.length = l := by
  simp [Store.read, List.getElem?_concat_length]

/-! ### Lemmas about `writeRange` -/

theorem length_writeRange (l xs : List Nat) (i : Nat) (h : i + xs.length ≤ l.length) :
    (writeRange l i xs).length = l.length := by
  simp [writeRange]
  omega

theorem getElem?_writeRange (l xs : List Nat) (i j : Nat) (h : i + xs.length ≤ l.length) :
    (writeRange l i xs)[j]? =
      if i ≤ j ∧ j < i + xs.length then xs[j - i]? else l[j]? := by
  have hi : (l.take i).length = i := by simp; omega
  rw [writeRange, List.append_assoc]
  rcases Nat.lt_or_ge j i with hj | hj
  · rw [List.getElem?_append_left (by omega), List.getElem?_take, if_pos hj,
      if_neg (by omega)]
  · rw [List.getElem?_append_right (by omega), hi]
    rcases Nat.lt_or_ge j (i + xs.length) with hj2 | hj2
    · rw [List.getElem?_append_left (by omega), if_pos (by omega)]
    · rw [List.getElem?_append_right (by omega), if_neg (by omega), List.getElem?_drop]
      congr 1
      omega

theorem drop_take_writeRange (B xs : List Nat) (off len : Nat)
    (h : off + len + xs.length ≤ B.length) :
    ((writeRange B (off + len) xs).drop off).take (len + xs.length)
      = (B.drop off).take len ++ xs := by
  apply List.ext_getElem?
  intro k
  rw [List.getElem?_take]
  split
  · next hk =>
    rw [List.getElem?_drop, getElem?_writeRange _ _ _ _ (by omega)]
    rcases Nat.lt_or_ge k len with hkl | hkl
    · rw [if_neg (by omega),
        List.getElem?_append_left (by simpa using (by omega : k < min len (B.length - off))),
        List.getElem?_take, if_pos hkl, List.getElem?_drop]
    · rw [if_pos (by omega), List.getElem?_append_right (by simp; omega)]
      congr 1
      simp
      omega
  · next hk =>
    symm
    rw [List.getElem?_eq_none]
    simp
    omega

theorem drop_take_writeRange_self (B xs : List Nat) (i : Nat)
    (h : i + xs.length ≤ B.length) :
    ((writeRange B i xs).drop i).take xs.length = xs := by
  rw [writeRange, List.append_assoc, List.drop_left' (by simp; omega), List.take_left]

/-! ### Lemmas about `View.readAll` -/

theorem length_readAll (v : View) (σ : Store) (h : v.Wf σ) :
    (v.readAll σ).length = v.len := by
  obtain ⟨-, h2, h3⟩ := h
  simp [View.readAll]
  omega

theorem getElem?_readAll (v : View) (σ : Store) (k : Nat) (hk : k < v.len) :
    (v.readAll σ)[k]? = (Store.read σ v.buf)[v.off + k]? := by
  simp [View.readAll, List.getElem?_take, hk, List.getElem?_drop]

/-! ### Lemmas about `grow` -/

theorem grow_len (σ : Store) (v : View) (xs : List Nat) :
    (grow σ v xs).2.len = v.len + xs.length := by
  rw [grow]
  split <;> rfl

theorem grow_fit_eq (σ : Store) (v : View) (xs : List Nat)
    (hfit : v.len + xs.length ≤ v.cap) :
    grow σ v xs =
      (σ.set v.buf (writeRange (Store.read σ v.buf) (v.off + v.len) xs),
       { v with len := v.len + xs.length }) := by
  rw [grow, if_pos hfit]

theorem grow_nofit_eq (σ : Store) (v : View) (xs : List Nat)
    (hover : ¬ v.len + xs.length ≤ v.cap) :
    grow σ v xs =
      (σ ++ [v.readAll σ ++ xs ++
               List.replicate (max (2 * v.cap) (v.len + xs.length) - (v.len + xs.length)) 0],
       { buf := σ.length, off := 0, len := v.len + xs.length,
         cap := max (2 * v.cap) (v.len + xs.length) }) := by
  rw [grow, if_neg hover]

/-- In both branches the view `grow` returns exposes exactly the old
elements followed by the appended ones. -/
theorem grow_readAll (σ : Store) (v : View) (xs : List Nat) (hwf : v.Wf σ) :
    (grow σ v xs).2.readAll (grow σ v xs).1 = v.readAll σ ++ xs := by
  obtain ⟨hb, hlc, hoc⟩ := hwf
  by_cases hfit : v.len + xs.length ≤ v.cap
  · rw [grow_fit_eq _ _ _ hfit]
    show ((Store.read _ v.buf).drop v.off).take (v.len + xs.length) = _
    rw [Store.read_set_self _ _ _ hb, drop_take_writeRange _ _ _ _ (by omega)]
    rfl
  · rw [grow_nofit_eq _ _ _ hfit]
    show ((Store.read _ σ.length).drop 0).take (v.len + xs.length) = _
    rw [Store.read_snoc_length, List.drop_zero]
    rw [List.take_left' (by simp [length_readAll v σ ⟨hb, hlc, hoc⟩])]

/-! ### The claims -/

/-- Claim C1: splitting the buffer `"a,b,c"` on `","` returns segments whose
capacities all extend to the end of the original 5-byte backing array; growing
segment 0 (length 1) by `'d','e','f'` fits within that extended capacity, so it
stays in the same backing array (no allocation) and silently overwrites
segment 1's backing bytes: segment 1 reads `"b"` before the grow and `"e"`
after it. -/
theorem C1_split_grow_overwrites_next_segment :
    (∀ w ∈ splitBySeparator abcStore abcView [44], w.buf = abcView.buf ∧ w.off + w.cap = 5) ∧
    ((splitBySeparator abcStore abcView [44]).getD 0 default).len = 1 ∧
    ((splitBySeparator abcStore abcView [44]).getD 0 default).len + 3 ≤
      ((splitBySeparator abcStore abcView [44]).getD 0 default).cap ∧
    View.readAll ((splitBySeparator abcStore abcView [44]).getD 1 default) abcStore = [98] ∧
    (grow abcStore ((splitBySeparator abcStore abcView [44]).getD 0 default)
        [100, 101, 102]).1.length = abcStore.length ∧
    (grow abcStore ((splitBySeparator abcStore abcView [44]).getD 0 default)
        [100, 101, 102]).2.buf = abcView.buf ∧
    View.readAll ((splitBySeparator abcStore abcView [44]).getD 1 default)
      (grow abcStore ((splitBySeparator abcStore abcView [44]).getD 0 default)
        [100, 101, 102]).1 = [101] := by
  decide

/-- Claim C4: splitting `"a,b,c"` on `","` yields the segments
`["a","b","c"]` as views into the original backing array (separators
excluded, nothing copied), and setting segment 0's first element to `'*'`
turns the backing array into exactly `"*,b,c"` — first byte changed, nothing
else. -/
theorem C4_split_segments_mutation_hits_buffer :
    (splitBySeparator abcStore abcView [44]).map (fun w => w.readAll abcStore)
      = [[97], [98], [99]] ∧
    (∀ w ∈ splitBySeparator abcStore abcView [44], w.buf = abcView.buf) ∧
    View.writeAt ((splitBySeparator abcStore abcView [44]).getD 0 default)
      abcStore 0 42 = starStore := by
  decide

/-- Claim C8: aliasing is observable in the other direction too — after
splitting `"a,b,c"` on `","`, writing `'*'` into the original buffer's first
element (through the original view, not through a segment) is observed
through segment 0, which reads `"a"` before and `"*"` after. -/
theorem C8_buffer_mutation_visible_through_segment :
    View.readAll ((splitBySeparator abcStore abcView [44]).getD 0 default) abcStore
      = [97] ∧
    View.readAll ((splitBySeparator abcStore abcView [44]).getD 0 default)
      (View.writeAt abcView abcStore 0 42) = [42] := by
  decide

/-- Claim C9: the in-place grow overwrites the separator bytes too — after
splitting `"*,b,c"` on `","` and appending `'d','e','f'` to segment 0, the
backing array reads exactly `"*defc"`: indices 1–3 (both separators and
segment 1's byte) now hold the appended elements, indices 0 and 4 are
unchanged. -/
theorem C9_grow_overwrites_separator_bytes :
    Store.read (grow starStore ((splitBySeparator starStore abcView [44]).getD 0 default)
        [100, 101, 102]).1 0 = [42, 100, 101, 102, 99] ∧
    Store.read starStore 0 = [42, 44, 98, 44, 99] := by
  decide

/-- Claim C2: when the needed length fits in the capacity, `grow` mutates the
existing backing array in place — it writes the new elements starting at
`off + len`, visible to any other view over that region — and returns a view
with the same backing-array identity and offset, the new length, and the
capacity unchanged; no allocation happens and no other backing array is
touched. -/
theorem C2_grow_in_place (σ : Store) (v : View) (xs : List Nat)
    (hwf : v.Wf σ) (hfit : v.len + xs.length ≤ v.cap) :
    (grow σ v xs).2.buf = v.buf ∧
    (grow σ v xs).2.off = v.off ∧
    (grow σ v xs).2.len = v.len + xs.length ∧
    (grow σ v xs).2.cap = v.cap ∧
    (∀ k, k < xs.length →
      (Store.read (grow σ v xs).1 v.buf)[v.off + v.len + k]? = xs[k]?) ∧
    (grow σ v xs).2.readAll (grow σ v xs).1 = v.readAll σ ++ xs ∧
    (∀ w : View, w.buf = v.buf → w.off = v.off + v.len → w.len = xs.length →
      w.readAll (grow σ v xs).1 = xs) ∧
    (∀ b, b ≠ v.buf → Store.read (grow σ v xs).1 b = Store.read σ b) ∧
    (grow σ v xs).1.length = σ.length := by
  obtain ⟨hb, hlc, hoc⟩ := hwf
  have hbound : v.off + v.len + xs.length ≤ (Store.read σ v.buf).length := by omega
  refine ⟨?_, ?_, ?_, ?_, ?_, grow_readAll σ v xs ⟨hb, hlc, hoc⟩, ?_, ?_, ?_⟩
  · rw [grow_fit_eq _ _ _ hfit]
  · rw [grow_fit_eq _ _ _ hfit]
  · rw [grow_fit_eq _ _ _ hfit]
  · rw [grow_fit_eq _ _ _ hfit]
  · intro k hk
    rw [grow_fit_eq _ _ _ hfit]
    show (Store.read (σ.set v.buf _) v.buf)[v.off + v.len + k]? = xs[k]?
    rw [Store.read_set_self _ _ _ hb, getElem?_writeRange _ _ _ _ hbound,
      if_pos ⟨by omega, by omega⟩]
    congr 1
    omega
  · intro w hwb hwo hwl
    rw [grow_fit_eq _ _ _ hfit]
    show ((Store.read (σ.set v.buf _) w.buf).drop w.off).take w.len = xs
    rw [hwb, hwo, hwl, Store.read_set_self _ _ _ hb,
      drop_take_writeRange_self _ _ _ hbound]
  · intro b hbne
    rw [grow_fit_eq _ _ _ hfit]
    exact Store.read_set_ne _ _ _ _ (Ne.symm hbne)
  · rw [grow_fit_eq _ _ _ hfit]
    exact List.length_set σ _ _

/-- Witness for C2 at the article's `appendDemo` scenario: a view of length 2
and capacity 4 over `[1,2]`, grown with `[3,4]`, keeps the backing-array
identity and reads `[1,2,3,4]`. -/
theorem C2_grow_in_place_witness :
    View.Wf ⟨0, 0, 2, 4⟩ [[1, 2, 0, 0]] ∧
    (⟨0, 0, 2, 4⟩ : View).len + [3, 4].length ≤ (⟨0, 0, 2, 4⟩ : View).cap ∧
    (grow [[1, 2, 0, 0]] ⟨0, 0, 2, 4⟩ [3, 4]).2.buf = 0 ∧
    View.readAll (grow [[1, 2, 0, 0]] ⟨0, 0, 2, 4⟩ [3, 4]).2
      (grow [[1, 2, 0, 0]] ⟨0, 0, 2, 4⟩ [3, 4]).1 = [1, 2, 3, 4] :=
  ⟨by decide, by decide,
   (C2_grow_in_place [[1, 2, 0, 0]] ⟨0, 0, 2, 4⟩ [3, 4] (by decide) (by decide)).1,
   (C2_grow_in_place [[1, 2, 0, 0]] ⟨0, 0, 2, 4⟩ [3, 4] (by decide) (by decide)).2.2.2.2.2.1⟩

/-- Claim C3: when the needed length exceeds the capacity, `grow` allocates —
the result is a view with a different backing-array identity, offset 0 and
the new length, reading the old elements followed by the appended ones,
while every previously allocated backing array (in particular `v`'s region)
and every view over one is left unchanged. -/
theorem C3_grow_reallocates (σ : Store) (v : View) (xs : List Nat)
    (hwf : v.Wf σ) (hover : v.cap < v.len + xs.length) :
    (grow σ v xs).2.buf ≠ v.buf ∧
    (grow σ v xs).2.off = 0 ∧
    (grow σ v xs).2.len = v.len + xs.length ∧
    (grow σ v xs).2.readAll (grow σ v xs).1 = v.readAll σ ++ xs ∧
    v.readAll (grow σ v xs).1 = v.readAll σ ∧
    (∀ b, b < σ.length → Store.read (grow σ v xs).1 b = Store.read σ b) ∧
    (∀ w : View, w.Wf σ → w.readAll (grow σ v xs).1 = w.readAll σ) := by
  obtain ⟨hb, hlc, hoc⟩ := hwf
  have hn : ¬ v.len + xs.length ≤ v.cap := by omega
  have hframe : ∀ b, b < σ.length → Store.read (grow σ v xs).1 b = Store.read σ b := by
    intro b hblt
    rw [grow_nofit_eq _ _ _ hn]
    exact Store.read_append_left _ _ _ hblt
  refine ⟨?_, ?_, ?_, grow_readAll σ v xs ⟨hb, hlc, hoc⟩, ?_, hframe, ?_⟩
  · rw [grow_nofit_eq _ _ _ hn]
    show σ.length ≠ v.buf
    omega
  · rw [grow_nofit_eq _ _ _ hn]
  · rw [grow_nofit_eq _ _ _ hn]
  · show ((Store.read (grow σ v xs).1 v.buf).drop v.off).take v.len = _
    rw [hframe v.buf hb]
    rfl
  · intro w hw
    show ((Store.read (grow σ v xs).1 w.buf).drop w.off).take w.len = _
    rw [hframe w.buf hw.1]
    rfl

/-- Witness for C3 at the article's `appendDemo` scenario: the full view over
`[1,2,3,4]` grown with `[5]` moves to a fresh backing array reading
`[1,2,3,4,5]`, and the original array still reads `[1,2,3,4]`. -/
theorem C3_grow_reallocates_witness :
    View.Wf ⟨0, 0, 4, 4⟩ [[1, 2, 3, 4]] ∧
    (⟨0, 0, 4, 4⟩ : View).cap < (⟨0, 0, 4, 4⟩ : View).len + [5].length ∧
    (grow [[1, 2, 3, 4]] ⟨0, 0, 4, 4⟩ [5]).2.buf ≠ 0 ∧
    View.readAll (grow [[1, 2, 3, 4]] ⟨0, 0, 4, 4⟩ [5]).2
      (grow [[1, 2, 3, 4]] ⟨0, 0, 4, 4⟩ [5]).1 = [1, 2, 3, 4, 5] ∧
    View.readAll ⟨0, 0, 4, 4⟩ (grow [[1, 2, 3, 4]] ⟨0, 0, 4, 4⟩ [5]).1 = [1, 2, 3, 4] :=
  ⟨by decide, by decide,
   (C3_grow_reallocates [[1, 2, 3, 4]] ⟨0, 0, 4, 4⟩ [5] (by decide) (by decide)).1,
   (C3_grow_reallocates [[1, 2, 3, 4]] ⟨0, 0, 4, 4⟩ [5] (by decide) (by decide)).2.2.2.1,
   (C3_grow_reallocates [[1, 2, 3, 4]] ⟨0, 0, 4, 4⟩ [5] (by decide) (by decide)).2.2.2.2.1⟩

/-- Claim C10: `grow` is deterministic — for two views with equal exposed
contents, equal length and equal capacity, grown by the same elements, the
branch condition coincides and the resulting views have the same length and
the same exposed contents; the outcome depends only on length, capacity and
the number of appended elements. -/
theorem C10_grow_deterministic (σ₁ σ₂ : Store) (v₁ v₂ : View) (xs : List Nat)
    (h₁ : v₁.Wf σ₁) (h₂ : v₂.Wf σ₂)
    (hc : v₁.readAll σ₁ = v₂.readAll σ₂)
    (hl : v₁.len = v₂.len) (hcap : v₁.cap = v₂.cap) :
    ((v₁.len + xs.length ≤ v₁.cap) ↔ (v₂.len + xs.length ≤ v₂.cap)) ∧
    (grow σ₁ v₁ xs).2.len = (grow σ₂ v₂ xs).2.len ∧
    (grow σ₁ v₁ xs).2.readAll (grow σ₁ v₁ xs).1
      = (grow σ₂ v₂ xs).2.readAll (grow σ₂ v₂ xs).1 := by
  refine ⟨by rw [hl, hcap], ?_, ?_⟩
  · rw [grow_len, grow_len, hl]
  · rw [grow_readAll _ _ _ h₁, grow_readAll _ _ _ h₂, hc]

/-- Witness for C10: the same view contents `[1,2]`, length 2 and capacity 4
realized over two differently laid-out heaps, grown with `[3]`, take the
same branch and produce the same contents. -/
theorem C10_grow_deterministic_witness :
    View.Wf ⟨0, 0, 2, 4⟩ [[1, 2, 0, 0]] ∧
    View.Wf ⟨0, 1, 2, 4⟩ [[9, 1, 2, 0, 0]] ∧
    View.readAll ⟨0, 0, 2, 4⟩ [[1, 2, 0, 0]] = View.readAll ⟨0, 1, 2, 4⟩ [[9, 1, 2, 0, 0]] ∧
    View.readAll (grow [[1, 2, 0, 0]] ⟨0, 0, 2, 4⟩ [3]).2
        (grow [[1, 2, 0, 0]] ⟨0, 0, 2, 4⟩ [3]).1
      = View.readAll (grow [[9, 1, 2, 0, 0]] ⟨0, 1, 2, 4⟩ [3]).2
          (grow [[9, 1, 2, 0, 0]] ⟨0, 1, 2, 4⟩ [3]).1 :=
  ⟨by decide, by decide, by decide,
   (C10_grow_deterministic [[1, 2, 0, 0]] [[9, 1, 2, 0, 0]] ⟨0, 0, 2, 4⟩ ⟨0, 1, 2, 4⟩ [3]
     (by decide) (by decide) (by decide) (by decide) (by decide)).2.2⟩

/-- Claim C5 (amended): `copyInto` copies exactly `min d.len s.len` elements
element-wise from the source region into the destination region and returns
that count; and it creates no aliasing — provided `d` and `s` reference
different backing arrays, mutating `s` afterwards does not change `d`'s
observed elements. -/
theorem C5_copyInto_copies_and_decouples (σ : Store) (d s : View)
    (hd : d.Wf σ) (hs : s.Wf σ) :
    (copyInto σ d s).2 = min d.len s.len ∧
    (∀ k, k < min d.len s.len →
      (d.readAll (copyInto σ d s).1)[k]? = (s.readAll σ)[k]?) ∧
    (d.buf ≠ s.buf → ∀ i x,
      d.readAll (View.writeAt s (copyInto σ d s).1 i x)
        = d.readAll (copyInto σ d s).1) := by
  obtain ⟨hdb, hdl, hdo⟩ := hd
  obtain ⟨hsb, hsl, hso⟩ := hs
  have hc1 : (copyInto σ d s).1
      = σ.set d.buf (writeRange (Store.read σ d.buf) d.off
          (((Store.read σ s.buf).drop s.off).take (min d.len s.len))) := rfl
  have hsrc : (((Store.read σ s.buf).drop s.off).take (min d.len s.len)).length
      = min d.len s.len := by
    simp
    omega
  refine ⟨rfl, ?_, ?_⟩
  · intro k hk
    rw [getElem?_readAll _ _ _ (by omega), hc1,
      Store.read_set_self _ _ _ hdb,
      getElem?_writeRange _ _ _ _ (by rw [hsrc]; omega),
      if_pos ⟨by omega, by rw [hsrc]; omega⟩]
    have hik : d.off + k - d.off = k := by omega
    rw [hik, List.getElem?_take, if_pos hk,
      getElem?_readAll _ _ _ (by omega), List.getElem?_drop]
  · intro hne i x
    simp only [View.writeAt, Store.write, View.readAll]
    rw [Store.read_set_ne _ _ _ _ (Ne.symm hne)]

/-- Witness for C5 at the spec's scenario: source `[1,2,3,4]`, destination a
separate array of length 4 and capacity 8; `copyInto` returns 4, the
destination reads the copied elements, and writing `9` through the source
afterwards leaves the destination's observed elements unchanged. -/
theorem C5_copyInto_witness :
    View.Wf ⟨1, 0, 4, 8⟩ [[1, 2, 3, 4], [0, 0, 0, 0, 0, 0, 0, 0]] ∧
    View.Wf ⟨0, 0, 4, 4⟩ [[1, 2, 3, 4], [0, 0, 0, 0, 0, 0, 0, 0]] ∧
    (copyInto [[1, 2, 3, 4], [0, 0, 0, 0, 0, 0, 0, 0]] ⟨1, 0, 4, 8⟩ ⟨0, 0, 4, 4⟩).2
      = min 4 4 ∧
    View.readAll ⟨1, 0, 4, 8⟩
        (View.writeAt ⟨0, 0, 4, 4⟩
          (copyInto [[1, 2, 3, 4], [0, 0, 0, 0, 0, 0, 0, 0]] ⟨1, 0, 4, 8⟩ ⟨0, 0, 4, 4⟩).1 0 9)
      = View.readAll ⟨1, 0, 4, 8⟩
          (copyInto [[1, 2, 3, 4], [0, 0, 0, 0, 0, 0, 0, 0]] ⟨1, 0, 4, 8⟩ ⟨0, 0, 4, 4⟩).1 :=
  ⟨by decide, by decide,
   (C5_copyInto_copies_and_decouples [[1, 2, 3, 4], [0, 0, 0, 0, 0, 0, 0, 0]]
     ⟨1, 0, 4, 8⟩ ⟨0, 0, 4, 4⟩ (by decide) (by decide)).1,
   (C5_copyInto_copies_and_decouples [[1, 2, 3, 4], [0, 0, 0, 0, 0, 0, 0, 0]]
     ⟨1, 0, 4, 8⟩ ⟨0, 0, 4, 4⟩ (by decide) (by decide)).2.2 (by decide) 0 9⟩

/-- Claim C5, counterexample: when the two views alias the same backing
array, mutating the source after `copyInto` does change the destination's
observed elements — with `d = s` the single view over the one-element array
`[5]`, `copyInto` returns the full count, yet writing `9` through `s`
changes what `d` reads. -/
theorem C5_aliased_copy_counterexample :
    (copyInto [[5]] ⟨0, 0, 1, 1⟩ ⟨0, 0, 1, 1⟩).2 = min 1 1 ∧
    View.readAll ⟨0, 0, 1, 1⟩
        (View.writeAt ⟨0, 0, 1, 1⟩ (copyInto [[5]] ⟨0, 0, 1, 1⟩ ⟨0, 0, 1, 1⟩).1 0 9)
      ≠ View.readAll ⟨0, 0, 1, 1⟩ (copyInto [[5]] ⟨0, 0, 1, 1⟩ ⟨0, 0, 1, 1⟩).1 := by
  decide

/-- Claim C6: `slice(v, lo, hi)` fails with `RangeError` exactly when
`lo < 0 ∨ hi < lo ∨ hi > v.len`; otherwise, without copying, it returns a
view over the same backing array with `off = v.off + lo`, `len = hi - lo`
and `cap = v.cap - lo`, whose exposed elements are the corresponding
sub-range of `v`'s on every heap — i.e. it aliases the input. -/
theorem C6_slice_bounds_and_fields (v : View) (lo hi : Int) (hvc : v.len ≤ v.cap) :
    (slice v lo hi = .error .rangeError ↔ (lo < 0 ∨ hi < lo ∨ (v.len : Int) < hi)) ∧
    (∀ w, slice v lo hi = .ok w →
      w.buf = v.buf ∧ (w.off : Int) = v.off + lo ∧ (w.len : Int) = hi - lo ∧
      (w.cap : Int) = v.cap - lo ∧
      ∀ σ : Store, w.readAll σ =
        ((v.readAll σ).drop lo.toNat).take (hi - lo).toNat) := by
  constructor
  · constructor
    · intro he
      by_contra hc
      rw [slice, if_neg hc] at he
      exact Except.noConfusion he
    · intro hc
      rw [slice, if_pos hc]
  · intro w hw
    by_cases hc : lo < 0 ∨ hi < lo ∨ (v.len : Int) < hi
    · rw [slice, if_pos hc] at hw
      exact Except.noConfusion hw
    · rw [slice, if_neg hc] at hw
      push_neg at hc
      obtain ⟨hlo, hhl, hhi⟩ := hc
      injection hw with hw
      subst hw
      refine ⟨rfl, ?_, ?_, ?_, ?_⟩
      · show ((v.off + lo.toNat : Nat) : Int) = v.off + lo
        omega
      · show (((hi - lo).toNat : Nat) : Int) = hi - lo
        omega
      · show ((v.cap - lo.toNat : Nat) : Int) = v.cap - lo
        omega
      intro σ
      simp only [View.readAll]
      rw [List.drop_take, List.drop_drop, List.take_take]
      congr 1
      omega

/-- Witness for C6: on the view of length 2 and capacity 4 at offset 1,
`slice` with bounds `0, 1` succeeds, keeps the backing array, and reads the
first exposed element. -/
theorem C6_slice_witness :
    (⟨0, 1, 2, 4⟩ : View).len ≤ (⟨0, 1, 2, 4⟩ : View).cap ∧
    (slice ⟨0, 1, 2, 4⟩ 0 1 = .error .rangeError ↔
      ((0 : Int) < 0 ∨ (1 : Int) < 0 ∨ (((⟨0, 1, 2, 4⟩ : View).len : Int) < 1))) ∧
    (⟨0, 1, 1, 4⟩ : View).buf = (⟨0, 1, 2, 4⟩ : View).buf ∧
    View.readAll ⟨0, 1, 1, 4⟩ [[9, 1, 2, 0, 0]] = [1] :=
  ⟨by decide,
   (C6_slice_bounds_and_fields ⟨0, 1, 2, 4⟩ 0 1 (by decide)).1,
   ((C6_slice_bounds_and_fields ⟨0, 1, 2, 4⟩ 0 1 (by decide)).2 ⟨0, 1, 1, 4⟩ rfl).1,
   ((C6_slice_bounds_and_fields ⟨0, 1, 2, 4⟩ 0 1 (by decide)).2 ⟨0, 1, 1, 4⟩ rfl).2.2.2.2
     [[9, 1, 2, 0, 0]]⟩

/-- A single byte below `0x80` is a complete one-byte UTF-8 sequence. -/
theorem utf8RuneSize_ascii (b : Nat) (t : List Nat) (h : b < 128) :
    utf8RuneSize (b :: t) = 1 := by
  simp [utf8RuneSize, h]

/-- On all-ASCII input the explode scan advances one byte per step: after
`k` positions the cursor is at `k` and one one-byte segment has been emitted
per position. -/
theorem explodeFold_ascii (s : List Nat) (hascii : ∀ b ∈ s, b < 128) :
    ∀ k, k ≤ s.length →
      (List.range k).foldl
        (fun (st : Nat × List (Nat × Nat)) i =>
          if i = st.1 then
            (i + utf8RuneSize (s.drop i), st.2 ++ [(i, utf8RuneSize (s.drop i))])
          else st)
        (0, []) = (k, (List.range k).map (fun i => (i, 1))) := by
  intro k
  induction k with
  | zero => intro _; rfl
  | succ n ih =>
    intro hk
    have hsz : utf8RuneSize (s.drop n) = 1 := by
      rw [List.drop_eq_getElem_cons (by omega)]
      exact utf8RuneSize_ascii _ _ (hascii _ (List.getElem_mem _))
    rw [List.range_succ, List.foldl_append, ih (by omega), List.foldl_cons,
      List.foldl_nil]
    dsimp only
    rw [if_pos rfl, hsz, List.map_append]
    rfl

/-- Claim C7 (amended): `splitBySeparator` is total — but with an empty
separator it returns one segment per UTF-8 sequence of the input (for
all-ASCII content, one single-byte segment per byte), not a single segment
equal to the whole input. -/
theorem C7_split_empty_separator_explodes (σ : Store) (v : View)
    (hwf : v.Wf σ) (hascii : ∀ b ∈ v.readAll σ, b < 128) :
    (splitBySeparator σ v []).map (fun w => w.readAll σ)
      = (v.readAll σ).map (fun b => [b]) := by
  have hwf' := hwf
  obtain ⟨hb, hlc, hoc⟩ := hwf'
  have hlen : (v.readAll σ).length = v.len := length_readAll v σ hwf
  rw [splitBySeparator, if_pos rfl, explodeSegs,
    explodeFold_ascii (v.readAll σ) hascii _ le_rfl, List.map_map, List.map_map]
  apply List.ext_getElem?
  intro k
  rw [List.getElem?_map, List.getElem?_map]
  rcases Nat.lt_or_ge k (v.readAll σ).length with hk | hk
  · rw [List.getElem?_range (by simpa using hk), List.getElem?_eq_getElem hk,
      Option.map_some', Option.map_some']
    congr 1
    show ((Store.read σ v.buf).drop (v.off + k)).take 1 = _
    rw [List.take_one, List.head?_drop]
    have hread : (Store.read σ v.buf)[v.off + k]? = some ((v.readAll σ)[k]) := by
      rw [← getElem?_readAll v σ k (by omega), List.getElem?_eq_getElem hk]
    rw [hread]
    rfl
  · rw [List.getElem?_eq_none (by simpa using hk), List.getElem?_eq_none hk]
    rfl

/-- Witness for C7 (amended) at the article's buffer: splitting `"a,b,c"` on
the empty separator yields the five one-byte segments
`"a"`, `","`, `"b"`, `","`, `"c"`. -/
theorem C7_split_empty_separator_witness :
    View.Wf abcView abcStore ∧
    (∀ b ∈ View.readAll abcView abcStore, b < 128) ∧
    (splitBySeparator abcStore abcView []).map (fun w => w.readAll abcStore)
      = [[97], [44], [98], [44], [99]] :=
  ⟨by decide, by decide, by
    rw [C7_split_empty_separator_explodes abcStore abcView (by decide) (by decide)]
    decide⟩

/-- Claim C7, counterexample: splitting the two-byte buffer `"ab"` on the
empty separator yields two one-byte segments, not a single segment equal to
the whole input. -/
theorem C7_empty_separator_counterexample :
    (splitBySeparator [[97, 98]] ⟨0, 0, 2, 2⟩ []).map (fun w => w.readAll [[97, 98]])
      = [[97], [98]] ∧
    (splitBySeparator [[97, 98]] ⟨0, 0, 2, 2⟩ []).length ≠ 1 := by
  decide

end Slices
